import Mathlib

/-!
# Verification of the instructable-pcgrl history / map-state core

Shallow embedding of the repository's history controller
(`src/lib/store/history/index.ts`), the map-state persistence adapter
(`src/lib/store/editor/map-state.ts`), the active-tab store
(`src/lib/store/editor/active-tab.ts`) and the default-map derivation
(`default-map-state.ts`), together with proofs of the stated properties.

Conventions of the embedding:
* A `GridMap` (`number[][]` in the source) is a `List (List Int)`; tile
  values are the integer codes of the `Tileset` object.
* The three Svelte stores `gridHistory`, `historyCursor`, `maxHistoryLength`
  are gathered into one record `HistoryState`; each public operation of the
  `GridHistory` namespace becomes a function
  `HistoryState → Except String HistoryState` (or returning a value as well).
  An `Except.error msg` models a thrown `AssertionError` carrying `msg`;
  since in the source every store write happens after all asserts, a thrown
  assertion leaves every store unchanged, which the embedding realises by
  returning `.error` without a new state.
* JavaScript `number` arguments that are range-checked with
  `_.isInteger` are modelled as `ℚ` (`jsIsInteger` is the
  denominator-one test); store contents are `Int` because every value
  ever written to the cursor store is an integer.
* `arr[i]`, `arr.slice(-m)` and `arr.slice(0, k)` are modelled by
  `jsIndex`, `jsSliceStart` and `List.take` respectively, with JS's
  clamping semantics.
-/

/-- A grid map: 2D array of integer tile codes (`GridMap = number[][]`). -/
abbrev GridMap : Type := List (List Int)

/-- `Tileset.BORDER` tile code. -/
def Tileset.BORDER : Int := 0

/-- `Tileset.EMPTY` tile code. -/
def Tileset.EMPTY : Int := 1

/-- `Tileset.WALL` tile code. -/
def Tileset.WALL : Int := 2

/-- `Tileset.BAT` tile code. -/
def Tileset.BAT : Int := 3

/-- JavaScript `arr[i]` for an integer index: `undefined` (`none`) when the
index is negative or past the end. -/
def jsIndex {α : Type} (l : List α) (i : Int) : Option α :=
  if i < 0 then none else l.get? i.toNat

/-- JavaScript `Array.prototype.slice(start)` with a single (possibly
negative) integer argument: a negative `start` counts from the end,
clamped at 0; a nonnegative `start` is clamped at the length. -/
def jsSliceStart {α : Type} (l : List α) (start : Int) : List α :=
  if start < 0 then l.drop (l.length + start).toNat else l.drop start.toNat

/-- Lodash `_.isInteger` on a JS number modelled as a rational. -/
def jsIsInteger (q : ℚ) : Bool := q.den == 1

/-- The three history stores of `src/lib/store/history`:
`gridHistory` (the log), `historyCursor`, and `maxHistoryLength`
(default `MAX_GRID_HISTORY_LENGTH = 20`). -/
structure HistoryState where
  log : List GridMap
  cursor : Int
  maxLen : Int
  deriving DecidableEq, Repr

/-- `GridHistory.getHistoryLength()`. -/
def getHistoryLength (s : HistoryState) : Int := s.log.length

/-- `GridHistory.getHistoryCursor()`. -/
def getHistoryCursor (s : HistoryState) : Int := s.cursor

/-- `GridHistory.setHistoryCursor(cursor)`: asserts the cursor is an
integer, nonnegative and below the history length, then writes it to the
cursor store. -/
def setHistoryCursor (cursor : ℚ) (s : HistoryState) : Except String HistoryState :=
  if ¬ jsIsInteger cursor then .error "cursor must be an integer"
  else if ¬ (0 ≤ cursor) then .error "cursor must be greater than or equal to 0"
  else if ¬ (cursor < (getHistoryLength s : ℚ)) then
    .error "cursor must be less than the history length"
  else .ok { s with cursor := cursor.num }

/-- `GridHistory.canUndo()`. -/
def canUndo (s : HistoryState) : Bool := getHistoryCursor s > 0

/-- `GridHistory.canRedo()`. -/
def canRedo (s : HistoryState) : Bool := getHistoryCursor s < getHistoryLength s - 1

/-- `GridHistory.undo()`: when `canUndo()`, moves the cursor back one step
(through `setHistoryCursor`) and returns `history[newCursor]`; otherwise
returns `undefined` (`none`) and changes nothing. -/
def undo (s : HistoryState) : Except String (Option GridMap × HistoryState) :=
  if canUndo s then
    match setHistoryCursor ((getHistoryCursor s - 1 : ℤ) : ℚ) s with
    | .error e => .error e
    | .ok s' => .ok (jsIndex s'.log (getHistoryCursor s - 1), s')
  else .ok (none, s)

/-- `GridHistory.redo()`: when `canRedo()`, moves the cursor forward one
step (through `setHistoryCursor`) and returns `history[newCursor]`;
otherwise returns `undefined` (`none`) and changes nothing. -/
def redo (s : HistoryState) : Except String (Option GridMap × HistoryState) :=
  if canRedo s then
    match setHistoryCursor ((getHistoryCursor s + 1 : ℤ) : ℚ) s with
    | .error e => .error e
    | .ok s' => .ok (jsIndex s'.log (getHistoryCursor s + 1), s')
  else .ok (none, s)

/-- `GridHistory.getMaxHistoryLength()`. -/
def getMaxHistoryLength (s : HistoryState) : Int := s.maxLen

/-- `GridHistory.loadCheckpoint(cursor)`: same asserts as
`setHistoryCursor`; then, if `history[cursor]` is present (a grid map,
always truthy in JS), truncates the log to `history.slice(0, cursor + 1)`.
The cursor store is not touched. -/
def loadCheckpoint (cursor : ℚ) (s : HistoryState) : Except String HistoryState :=
  if ¬ jsIsInteger cursor then .error "cursor must be an integer"
  else if ¬ (0 ≤ cursor) then .error "cursor must be greater than or equal to 0"
  else if ¬ (cursor < (getHistoryLength s : ℚ)) then
    .error "cursor must be less than the history length"
  else
    match jsIndex s.log cursor.num with
    | some _ => .ok { s with log := s.log.take (cursor.num.toNat + 1) }
    | none => .ok s

/-- `GridHistory.appendHistory(state, cursor)`: same asserts; branches the
log as `[...history.slice(0, cursor + 1), state]`, trims it to
`newHistory.slice(-maxLength)` when longer than `maxLength` (read from the
store at call time), commits the log and points the cursor store at the
new tail (`newHistory.length - 1`). -/
def appendHistory (state : GridMap) (cursor : ℚ) (s : HistoryState) :
    Except String HistoryState :=
  if ¬ jsIsInteger cursor then .error "cursor must be an integer"
  else if ¬ (0 ≤ cursor) then .error "cursor must be greater than or equal to 0"
  else if ¬ (cursor < (getHistoryLength s : ℚ)) then
    .error "cursor must be less than the history length"
  else
    let maxLength := s.maxLen
    let newHistory := s.log.take (cursor.num.toNat + 1) ++ [state]
    let newHistory :=
      if (newHistory.length : Int) > maxLength then jsSliceStart newHistory (-maxLength)
      else newHistory
    .ok { s with log := newHistory, cursor := (newHistory.length : Int) - 1 }

/-- The state the stores hold after an operation: the new state on success,
the old one when an assert fired (in the source every store write happens
after all asserts, so a thrown assertion mutates nothing). -/
def commitResult (s : HistoryState) (r : Except String HistoryState) : HistoryState :=
  match r with
  | .ok s' => s'
  | .error _ => s

deriving instance DecidableEq for Except

example : jsIsInteger ((3 : Int) : ℚ) = true := by decide

example : setHistoryCursor ((3 : Int) : ℚ) ⟨[[[0]], [[1]], [[2]], [[3]]], 0, 20⟩ =
    .ok ⟨[[[0]], [[1]], [[2]], [[3]]], 3, 20⟩ := by decide

example : undo ⟨[[[0]], [[1]]], 1, 20⟩ = .ok (some [[0]], ⟨[[[0]], [[1]]], 0, 20⟩) := by
  decide

/-! ## Basic lemmas about the JS primitives and the history operations -/

theorem jsIsInteger_intCast (c : ℤ) : jsIsInteger (c : ℚ) = true := by
  simp [jsIsInteger]

theorem jsIsInteger_natCast (n : ℕ) : jsIsInteger (n : ℚ) = true := by
  simp [jsIsInteger]

theorem jsIndex_eq_some {α : Type} (l : List α) (i : ℤ) (h0 : 0 ≤ i)
    (h1 : i < (l.length : ℤ)) : (∃ a, l[i.toNat]? = some a) ∧
      jsIndex l i = l[i.toNat]? := by
  refine ⟨⟨l.get ⟨i.toNat, by omega⟩, List.getElem?_eq_getElem (by omega)⟩, ?_⟩
  simp [jsIndex, not_lt.mpr h0, h0]

theorem jsIndex_isSome {α : Type} (l : List α) (i : ℤ) (h0 : 0 ≤ i)
    (h1 : i < (l.length : ℤ)) : (jsIndex l i).isSome := by
  obtain ⟨⟨a, h⟩, h'⟩ := jsIndex_eq_some l i h0 h1
  rw [h', h]
  rfl

theorem setHistoryCursor_intCast (c : ℤ) (s : HistoryState) (h0 : 0 ≤ c)
    (h1 : c < (s.log.length : ℤ)) :
    setHistoryCursor (c : ℚ) s = .ok { s with cursor := c } := by
  have hq0 : (0 : ℚ) ≤ (c : ℚ) := by exact_mod_cast h0
  have hq1 : ((c : ℤ) : ℚ) < ((s.log.length : ℕ) : ℚ) := by exact_mod_cast h1
  simp [setHistoryCursor, jsIsInteger_intCast, getHistoryLength, hq0, hq1]

theorem loadCheckpoint_intCast (c : ℤ) (s : HistoryState) (h0 : 0 ≤ c)
    (h1 : c < (s.log.length : ℤ)) :
    loadCheckpoint (c : ℚ) s = .ok { s with log := s.log.take (c.toNat + 1) } := by
  have hq0 : (0 : ℚ) ≤ (c : ℚ) := by exact_mod_cast h0
  have hq1 : ((c : ℤ) : ℚ) < ((s.log.length : ℕ) : ℚ) := by exact_mod_cast h1
  obtain ⟨⟨a, hg⟩, hg'⟩ := jsIndex_eq_some s.log c h0 h1
  simp [loadCheckpoint, jsIsInteger_intCast, getHistoryLength, hq0, hq1, hg', hg]

theorem appendHistory_intCast (state : GridMap) (c : ℤ) (s : HistoryState)
    (h0 : 0 ≤ c) (h1 : c < (s.log.length : ℤ)) :
    appendHistory state (c : ℚ) s =
      .ok { s with
        log := (let nh := s.log.take (c.toNat + 1) ++ [state];
          if (nh.length : ℤ) > s.maxLen then jsSliceStart nh (-s.maxLen) else nh),
        cursor := ((let nh := s.log.take (c.toNat + 1) ++ [state];
          if (nh.length : ℤ) > s.maxLen then jsSliceStart nh (-s.maxLen) else nh).length : ℤ)
          - 1 } := by
  have hq0 : (0 : ℚ) ≤ (c : ℚ) := by exact_mod_cast h0
  have hq1 : ((c : ℤ) : ℚ) < ((s.log.length : ℕ) : ℚ) := by exact_mod_cast h1
  simp [appendHistory, jsIsInteger_intCast, getHistoryLength, hq0, hq1]

/-- A rational accepted by all three asserts is an integer in `[0, len)`. -/
theorem cursorGuards {q : ℚ} {n : ℕ} (hint : jsIsInteger q = true)
    (h0 : 0 ≤ q) (h1 : q < (n : ℤ)) :
    (q.num : ℚ) = q ∧ 0 ≤ q.num ∧ q.num < (n : ℤ) := by
  have hden : q.den = 1 := by simpa [jsIsInteger] using hint
  have hq : (q.num : ℚ) = q := (Rat.den_eq_one_iff q).mp hden
  refine ⟨hq, ?_, ?_⟩
  · have : (0 : ℚ) ≤ (q.num : ℚ) := by rw [hq]; exact h0
    exact_mod_cast this
  · have : (q.num : ℚ) < ((n : ℤ) : ℚ) := by rw [hq]; exact_mod_cast h1
    exact_mod_cast this

theorem setHistoryCursor_ok_inv {q : ℚ} {s s' : HistoryState}
    (h : setHistoryCursor q s = .ok s') :
    s'.log = s.log ∧ s'.maxLen = s.maxLen ∧ s'.cursor = q.num ∧
      0 ≤ s'.cursor ∧ s'.cursor < (s.log.length : ℤ) := by
  unfold setHistoryCursor at h
  split at h
  · exact absurd h (by simp)
  split at h
  · exact absurd h (by simp)
  split at h
  · exact absurd h (by simp)
  rename_i hint h0 h1
  rw [not_not] at hint h0 h1
  simp only [getHistoryLength] at h1
  obtain ⟨-, hn0, hn1⟩ := cursorGuards hint h0 h1
  cases h
  exact ⟨rfl, rfl, rfl, hn0, hn1⟩

theorem undo_ok_inv {r : Option GridMap} {s s' : HistoryState}
    (h : undo s = .ok (r, s')) :
    s' = s ∨ (s'.log = s.log ∧ s'.maxLen = s.maxLen ∧
      0 ≤ s'.cursor ∧ s'.cursor < (s.log.length : ℤ)) := by
  unfold undo at h
  split at h
  · cases hm : setHistoryCursor ((getHistoryCursor s - 1 : ℤ) : ℚ) s with
    | error e => rw [hm] at h; exact absurd h (by simp)
    | ok s₁ =>
        rw [hm] at h
        simp only [Except.ok.injEq, Prod.mk.injEq] at h
        obtain ⟨hl, hm', -, h0, h1⟩ := setHistoryCursor_ok_inv hm
        exact Or.inr ⟨h.2 ▸ hl, h.2 ▸ hm', h.2 ▸ h0, h.2 ▸ h1⟩
  · simp only [Except.ok.injEq, Prod.mk.injEq] at h
    exact Or.inl h.2.symm

theorem redo_ok_inv {r : Option GridMap} {s s' : HistoryState}
    (h : redo s = .ok (r, s')) :
    s' = s ∨ (s'.log = s.log ∧ s'.maxLen = s.maxLen ∧
      0 ≤ s'.cursor ∧ s'.cursor < (s.log.length : ℤ)) := by
  unfold redo at h
  split at h
  · cases hm : setHistoryCursor ((getHistoryCursor s + 1 : ℤ) : ℚ) s with
    | error e => rw [hm] at h; exact absurd h (by simp)
    | ok s₁ =>
        rw [hm] at h
        simp only [Except.ok.injEq, Prod.mk.injEq] at h
        obtain ⟨hl, hm', -, h0, h1⟩ := setHistoryCursor_ok_inv hm
        exact Or.inr ⟨h.2 ▸ hl, h.2 ▸ hm', h.2 ▸ h0, h.2 ▸ h1⟩
  · simp only [Except.ok.injEq, Prod.mk.injEq] at h
    exact Or.inl h.2.symm

theorem undo_pos (s : HistoryState) (h0 : 0 < s.cursor)
    (h1 : s.cursor < (s.log.length : ℤ)) :
    undo s = .ok (jsIndex s.log (s.cursor - 1), { s with cursor := s.cursor - 1 }) := by
  have hcan : canUndo s = true := by
    simp [canUndo, getHistoryCursor]; omega
  have hset : setHistoryCursor ((s.cursor - 1 : ℤ) : ℚ) s =
      .ok { s with cursor := s.cursor - 1 } :=
    setHistoryCursor_intCast (s.cursor - 1) s (by omega) (by omega)
  simp only [undo, hcan, if_true, getHistoryCursor, hset]

theorem undo_nonpos (s : HistoryState) (h0 : s.cursor ≤ 0) :
    undo s = .ok (none, s) := by
  have hcan : canUndo s = false := by
    simp [canUndo, getHistoryCursor]; omega
  simp only [undo, hcan, Bool.false_eq_true, if_false]

theorem redo_pos (s : HistoryState) (h0 : 0 ≤ s.cursor)
    (h1 : s.cursor < (s.log.length : ℤ) - 1) :
    redo s = .ok (jsIndex s.log (s.cursor + 1), { s with cursor := s.cursor + 1 }) := by
  have hcan : canRedo s = true := by
    simp [canRedo, getHistoryCursor, getHistoryLength]; omega
  have hset : setHistoryCursor ((s.cursor + 1 : ℤ) : ℚ) s =
      .ok { s with cursor := s.cursor + 1 } :=
    setHistoryCursor_intCast (s.cursor + 1) s (by omega) (by omega)
  simp only [redo, hcan, if_true, getHistoryCursor, hset]

theorem redo_end (s : HistoryState) (h0 : (s.log.length : ℤ) - 1 ≤ s.cursor) :
    redo s = .ok (none, s) := by
  have hcan : canRedo s = false := by
    simp [canRedo, getHistoryCursor, getHistoryLength]; omega
  simp only [redo, hcan, Bool.false_eq_true, if_false]

/-! ## C4: undo/redo round-trip and the general undo/redo laws -/

/-- **C4.** For `Log = [A,B,C]`, `cursor = 2`: `undo()` returns `B` and the
cursor becomes 1; a following `redo()` returns `C` and the cursor becomes 2;
three successive `undo()` calls from cursor 2 return `B`, then `A`, then
`None`, the cursor staying 0 on the third call.  In general (on a state
satisfying the cursor-bounds invariant) `undo()` decrements the cursor and
returns `Log[newCursor]` exactly when `cursor > 0`, otherwise returning
`None` without error and changing nothing; `redo()` is symmetric for
`cursor < length - 1`. -/
theorem undo_redo_roundtrip (A B C : GridMap) (m : ℤ) (s : HistoryState)
    (hc0 : 0 ≤ s.cursor) (hcl : s.cursor < (s.log.length : ℤ)) :
    (undo ⟨[A, B, C], 2, m⟩ = .ok (some B, ⟨[A, B, C], 1, m⟩)) ∧
    (redo ⟨[A, B, C], 1, m⟩ = .ok (some C, ⟨[A, B, C], 2, m⟩)) ∧
    (undo ⟨[A, B, C], 1, m⟩ = .ok (some A, ⟨[A, B, C], 0, m⟩)) ∧
    (undo ⟨[A, B, C], 0, m⟩ = .ok (none, ⟨[A, B, C], 0, m⟩)) ∧
    (0 < s.cursor →
      undo s = .ok (jsIndex s.log (s.cursor - 1), { s with cursor := s.cursor - 1 }) ∧
        (jsIndex s.log (s.cursor - 1)).isSome) ∧
    (s.cursor ≤ 0 → undo s = .ok (none, s)) ∧
    (s.cursor < (s.log.length : ℤ) - 1 →
      redo s = .ok (jsIndex s.log (s.cursor + 1), { s with cursor := s.cursor + 1 }) ∧
        (jsIndex s.log (s.cursor + 1)).isSome) ∧
    ((s.log.length : ℤ) - 1 ≤ s.cursor → redo s = .ok (none, s)) := by
  refine ⟨?_, ?_, ?_, ?_, ?_, ?_, ?_, ?_⟩
  · rw [undo_pos ⟨[A, B, C], 2, m⟩ (by norm_num) (by norm_num)]
    simp [jsIndex]
  · rw [redo_pos ⟨[A, B, C], 1, m⟩ (by norm_num) (by norm_num)]
    simp [jsIndex]
  · rw [undo_pos ⟨[A, B, C], 1, m⟩ (by norm_num) (by norm_num)]
    simp [jsIndex]
  · exact undo_nonpos ⟨[A, B, C], 0, m⟩ (by norm_num)
  · intro h
    exact ⟨undo_pos s h hcl, jsIndex_isSome s.log (s.cursor - 1) (by omega) (by omega)⟩
  · exact undo_nonpos s
  · intro h
    exact ⟨redo_pos s hc0 h, jsIndex_isSome s.log (s.cursor + 1) (by omega) (by omega)⟩
  · exact redo_end s

/-- Witness for C4 at a concrete state. -/
theorem undo_redo_roundtrip_witness :
    undo ⟨[[[0]], [[1]], [[2]]], 2, 20⟩ =
      .ok (some [[1]], ⟨[[[0]], [[1]], [[2]]], 1, 20⟩) := by
  have h := undo_redo_roundtrip [[0]] [[1]] [[2]] 20 ⟨[[[0]], [[1]], [[2]]], 2, 20⟩
    (by norm_num) (by norm_num)
  exact h.1

/-! ## C6: precondition rejection of setHistoryCursor -/

/-- **C6.** `setHistoryCursor(-1)`, `setHistoryCursor(1.5)` and
`setHistoryCursor(length)` each fail with the assertion error naming the
violated precondition, and afterwards the log and the cursor store hold
exactly their prior values (no partial mutation, no silent clamping). -/
theorem setHistoryCursor_rejects_bad_cursor (s : HistoryState) :
    (setHistoryCursor (-1 : ℚ) s = .error "cursor must be greater than or equal to 0" ∧
      commitResult s (setHistoryCursor (-1 : ℚ) s) = s) ∧
    (setHistoryCursor (1.5 : ℚ) s = .error "cursor must be an integer" ∧
      commitResult s (setHistoryCursor (1.5 : ℚ) s) = s) ∧
    (setHistoryCursor ((s.log.length : ℤ) : ℚ) s =
        .error "cursor must be less than the history length" ∧
      commitResult s (setHistoryCursor ((s.log.length : ℤ) : ℚ) s) = s) := by
  have hneg : setHistoryCursor (-1 : ℚ) s =
      .error "cursor must be greater than or equal to 0" := by
    have h1 : jsIsInteger (-1 : ℚ) = true := by decide
    norm_num [setHistoryCursor, h1]
  have hfrac : setHistoryCursor (1.5 : ℚ) s = .error "cursor must be an integer" := by
    have h1 : jsIsInteger (1.5 : ℚ) = false := by
      simp only [jsIsInteger, beq_eq_false_iff_ne, ne_eq]
      norm_num
    simp [setHistoryCursor, h1]
  have hlen : setHistoryCursor ((s.log.length : ℤ) : ℚ) s =
      .error "cursor must be less than the history length" := by
    have h0 : (0 : ℚ) ≤ ((s.log.length : ℤ) : ℚ) := by positivity
    simp [setHistoryCursor, jsIsInteger_intCast, jsIsInteger_natCast, getHistoryLength, h0]
  exact ⟨⟨hneg, by rw [hneg]; rfl⟩, ⟨hfrac, by rw [hfrac]; rfl⟩, ⟨hlen, by rw [hlen]; rfl⟩⟩

/-! ## C7: appendHistory against an empty log always fails -/

/-- **C7.** When the log is empty, `appendHistory(state, cursor)` fails with
an assertion error for every cursor argument (the precondition
`cursor < length` cannot hold; for an integer `cursor ≥ 0` the reported
error is exactly the length precondition), and the stores keep their prior
values: no entry is ever added to an empty log through `appendHistory`. -/
theorem appendHistory_empty_log_errors (state : GridMap) (q : ℚ) (s : HistoryState)
    (hempty : s.log = []) :
    (∃ msg, appendHistory state q s = .error msg) ∧
    commitResult s (appendHistory state q s) = s ∧
    (jsIsInteger q = true → 0 ≤ q →
      appendHistory state q s = .error "cursor must be less than the history length") := by
  have hlen : (getHistoryLength s : ℚ) = 0 := by
    simp [getHistoryLength, hempty]
  have herr : ∀ msg, appendHistory state q s = .error msg →
      (∃ m, appendHistory state q s = .error m) ∧
        commitResult s (appendHistory state q s) = s := by
    intro msg h
    exact ⟨⟨msg, h⟩, by rw [h]; rfl⟩
  by_cases h1 : jsIsInteger q
  · by_cases h2 : (0 : ℚ) ≤ q
    · have h3 : ¬ (q < (getHistoryLength s : ℚ)) := by rw [hlen]; exact not_lt.mpr h2
      have h : appendHistory state q s = .error "cursor must be less than the history length" := by
        simp [appendHistory, h1, h2, h3]
      exact ⟨(herr _ h).1, (herr _ h).2, fun _ _ => h⟩
    · have h : appendHistory state q s = .error "cursor must be greater than or equal to 0" := by
        simp [appendHistory, h1, h2]
      exact ⟨(herr _ h).1, (herr _ h).2, fun _ h2' => absurd h2' h2⟩
  · have h : appendHistory state q s = .error "cursor must be an integer" := by
      simp [appendHistory, h1]
    exact ⟨(herr _ h).1, (herr _ h).2, fun h1' _ => absurd h1' (by simpa using h1)⟩

/-- Witness for C7 at cursor 0 on the empty log. -/
theorem appendHistory_empty_log_errors_witness :
    appendHistory [[0]] ((0 : ℤ) : ℚ) ⟨[], 0, 20⟩ =
      .error "cursor must be less than the history length" :=
  (appendHistory_empty_log_errors [[0]] ((0 : ℤ) : ℚ) ⟨[], 0, 20⟩ rfl).2.2
    (jsIsInteger_intCast 0) (by norm_num)

/-! ## C3: loadCheckpoint truncates and leaves the cursor store alone -/

/-- **C3.** For every log and integer cursor with `0 ≤ cursor < length`,
`loadCheckpoint(cursor)` replaces the log with its inclusive prefix
`Log[0 .. cursor]` (all later entries discarded) and leaves the cursor
store (and the max-length store) unchanged: it does not reposition the
cursor. -/
theorem loadCheckpoint_truncates_leaves_cursor (s : HistoryState) (c : ℤ)
    (h0 : 0 ≤ c) (h1 : c < (s.log.length : ℤ)) :
    ∃ s', loadCheckpoint (c : ℚ) s = .ok s' ∧
      s'.log = s.log.take (c.toNat + 1) ∧
      s'.cursor = s.cursor ∧ s'.maxLen = s.maxLen := by
  exact ⟨_, loadCheckpoint_intCast c s h0 h1, rfl, rfl, rfl⟩

/-- Witness for C3 at a concrete log and cursor. -/
theorem loadCheckpoint_truncates_leaves_cursor_witness :
    ∃ s', loadCheckpoint ((1 : ℤ) : ℚ) ⟨[[[0]], [[1]], [[2]]], 2, 20⟩ = .ok s' ∧
      s'.log = [[[0]], [[1]]] ∧ s'.cursor = 2 ∧ s'.maxLen = 20 := by
  obtain ⟨s', h, hl, hc, hm⟩ := loadCheckpoint_truncates_leaves_cursor
    ⟨[[[0]], [[1]], [[2]]], 2, 20⟩ 1 (by norm_num) (by norm_num)
  exact ⟨s', h, by simpa using hl, hc, hm⟩

/-! ## C1: appendHistory = branch, trim to the last maxLength entries, commit -/

/-- The last `k` entries of a list, in order — the spec's `l[-k:]`. -/
def lastEntries {α : Type} (k : ℕ) (l : List α) : List α := l.drop (l.length - k)

/-- For a positive `m`, JS `l.slice(-m)` is exactly the last `m` entries. -/
theorem jsSliceStart_neg_eq_lastEntries {α : Type} (l : List α) (m : ℤ) (h : 0 < m) :
    jsSliceStart l (-m) = lastEntries m.toNat l := by
  unfold jsSliceStart lastEntries
  rw [if_pos (by omega)]
  congr 1
  omega

theorem jsIndex_concat_last {α : Type} (xs : List α) (a : α) :
    jsIndex (xs ++ [a]) (((xs ++ [a]).length : ℤ) - 1) = some a := by
  have hlen : ((xs ++ [a]).length : ℤ) - 1 = (xs.length : ℤ) := by
    simp
  rw [hlen]
  simp [jsIndex]

theorem lastEntries_concat {α : Type} (k : ℕ) (hk : 1 ≤ k) (xs : List α) (a : α) :
    lastEntries k (xs ++ [a]) = xs.drop ((xs.length + 1) - k) ++ [a] := by
  unfold lastEntries
  rw [List.length_append, List.length_singleton,
    List.drop_append_of_le_length (by omega)]

/-- **C1.** For every log, cursor store value, grid map `state` and integer
cursor with `0 ≤ cursor < length(Log)` (and the data model's positive
`maxHistoryLength`), `appendHistory(state, cursor)` sets the log to
`Log[0 .. cursor] ++ [state]`, trimmed to its last `maxHistoryLength`
entries when longer than the `maxHistoryLength` read at call time, and sets
the cursor store to `length(newLog) - 1`, which indexes the just-appended
`state`. -/
theorem appendHistory_branch_trim_commit (s : HistoryState) (state : GridMap)
    (c : ℤ) (h0 : 0 ≤ c) (h1 : c < (s.log.length : ℤ)) (hmax : 0 < s.maxLen) :
    ∃ s', appendHistory state (c : ℚ) s = .ok s' ∧
      s'.log = (if s.maxLen < ((s.log.take (c.toNat + 1) ++ [state]).length : ℤ)
        then lastEntries s.maxLen.toNat (s.log.take (c.toNat + 1) ++ [state])
        else s.log.take (c.toNat + 1) ++ [state]) ∧
      s'.cursor = (s'.log.length : ℤ) - 1 ∧
      jsIndex s'.log s'.cursor = some state ∧
      s'.maxLen = s.maxLen := by
  by_cases hgt : s.maxLen < ((s.log.take (c.toNat + 1) ++ [state]).length : ℤ)
  · refine ⟨⟨jsSliceStart (s.log.take (c.toNat + 1) ++ [state]) (-s.maxLen),
      ((jsSliceStart (s.log.take (c.toNat + 1) ++ [state]) (-s.maxLen)).length : ℤ) - 1,
      s.maxLen⟩, ?_, ?_, rfl, ?_, rfl⟩
    · rw [appendHistory_intCast state c s h0 h1]
      simp only [if_pos hgt]
    · rw [if_pos hgt]
      exact jsSliceStart_neg_eq_lastEntries _ s.maxLen hmax
    · show jsIndex (jsSliceStart (s.log.take (c.toNat + 1) ++ [state]) (-s.maxLen)) _ =
        some state
      rw [jsSliceStart_neg_eq_lastEntries _ s.maxLen hmax,
        lastEntries_concat s.maxLen.toNat (by omega) _ state]
      exact jsIndex_concat_last _ state
  · refine ⟨⟨s.log.take (c.toNat + 1) ++ [state],
      ((s.log.take (c.toNat + 1) ++ [state]).length : ℤ) - 1, s.maxLen⟩,
      ?_, ?_, rfl, ?_, rfl⟩
    · rw [appendHistory_intCast state c s h0 h1]
      simp only [if_neg hgt]
    · simp only [if_neg hgt]
    · exact jsIndex_concat_last _ state

/-- Witness for C1: log `[A,B,C]`, cursor 1, maxLength 2 — branch gives
`[A,B,X]`, trim keeps `[B,X]`, cursor becomes 1 pointing at `X`. -/
theorem appendHistory_branch_trim_commit_witness :
    ∃ s', appendHistory [[9]] ((1 : ℤ) : ℚ) ⟨[[[0]], [[1]], [[2]]], 2, 2⟩ = .ok s' ∧
      s'.log = [[[1]], [[9]]] ∧ s'.cursor = 1 ∧
      jsIndex s'.log s'.cursor = some [[9]] ∧ s'.maxLen = 2 := by
  obtain ⟨s', h, hl, hc, hi, hm⟩ := appendHistory_branch_trim_commit
    ⟨[[[0]], [[1]], [[2]]], 2, 2⟩ [[9]] 1 (by norm_num) (by norm_num) (by norm_num)
  have heval : appendHistory [[9]] ((1 : ℤ) : ℚ) ⟨[[[0]], [[1]], [[2]]], 2, 2⟩ =
      .ok ⟨[[[1]], [[9]]], 1, 2⟩ := by decide
  have hs' : s' = ⟨[[[1]], [[9]]], 1, 2⟩ := Except.ok.inj (h.symm.trans heval)
  subst hs'
  exact ⟨_, h, rfl, rfl, by decide, rfl⟩

/-! ## C2: the cursor-bounds invariant over reachable states -/

/-- The spec's invariant: whenever the log is non-empty,
`0 ≤ cursor < length(Log)`. -/
def HistoryInv (s : HistoryState) : Prop :=
  s.log ≠ [] → 0 ≤ s.cursor ∧ s.cursor < (s.log.length : ℤ)

theorem appendHistory_ok_inv {state : GridMap} {q : ℚ} {s s' : HistoryState}
    (h : appendHistory state q s = .ok s') :
    s'.cursor = (s'.log.length : ℤ) - 1 ∧ s'.maxLen = s.maxLen := by
  unfold appendHistory at h
  split at h
  · exact absurd h (by simp)
  split at h
  · exact absurd h (by simp)
  split at h
  · exact absurd h (by simp)
  cases h
  exact ⟨rfl, rfl⟩

theorem loadCheckpoint_ok_inv {q : ℚ} {s s' : HistoryState}
    (h : loadCheckpoint q s = .ok s') :
    s'.cursor = s.cursor ∧ s'.maxLen = s.maxLen ∧
      (s'.log = s.log ∨
        (0 ≤ q.num ∧ q.num < (s.log.length : ℤ) ∧ (q.num : ℚ) = q ∧
          s'.log = s.log.take (q.num.toNat + 1))) := by
  unfold loadCheckpoint at h
  split at h
  · exact absurd h (by simp)
  split at h
  · exact absurd h (by simp)
  split at h
  · exact absurd h (by simp)
  rename_i hint h0 h1
  rw [not_not] at hint h0 h1
  simp only [getHistoryLength] at h1
  obtain ⟨hq, hn0, hn1⟩ := cursorGuards hint h0 h1
  split at h
  · cases h
    exact ⟨rfl, rfl, Or.inr ⟨hn0, hn1, hq, rfl⟩⟩
  · cases h
    exact ⟨rfl, rfl, Or.inl rfl⟩

/-- A transition of the history controller: one successful public mutation
(`appendHistory`, `undo`, `redo`, `setHistoryCursor` or `loadCheckpoint`),
"successful" meaning all of the operation's own asserts passed. -/
inductive HistoryStep : HistoryState → HistoryState → Prop where
  | appendStep (state : GridMap) (q : ℚ) (s s' : HistoryState) :
      appendHistory state q s = .ok s' → HistoryStep s s'
  | undoStep (r : Option GridMap) (s s' : HistoryState) :
      undo s = .ok (r, s') → HistoryStep s s'
  | redoStep (r : Option GridMap) (s s' : HistoryState) :
      redo s = .ok (r, s') → HistoryStep s s'
  | setCursorStep (q : ℚ) (s s' : HistoryState) :
      setHistoryCursor q s = .ok s' → HistoryStep s s'
  | loadStep (q : ℚ) (s s' : HistoryState) :
      loadCheckpoint q s = .ok s' → HistoryStep s s'

/-- **C2, counterexample.** From the seeded state `Log = [A]`, `cursor = 0`
(non-empty log, cursor within bounds), the sequence
`appendHistory(B, 0); loadCheckpoint(0)` — each call satisfying its own
preconditions — reaches the state `Log = [A]`, `cursor = 1`, whose log is
non-empty while `cursor < length(Log)` fails: `loadCheckpoint` truncates
the log without repositioning the cursor store. -/
theorem historyInvariant_breaks_via_loadCheckpoint :
    Relation.ReflTransGen HistoryStep ⟨[[[0]]], 0, 20⟩ ⟨[[[0]]], 1, 20⟩ ∧
    ((⟨[[[0]]], 0, 20⟩ : HistoryState).log ≠ [] ∧
      0 ≤ (⟨[[[0]]], 0, 20⟩ : HistoryState).cursor ∧
      (⟨[[[0]]], 0, 20⟩ : HistoryState).cursor <
        ((⟨[[[0]]], 0, 20⟩ : HistoryState).log.length : ℤ)) ∧
    (⟨[[[0]]], 1, 20⟩ : HistoryState).log ≠ [] ∧
    ¬ ((⟨[[[0]]], 1, 20⟩ : HistoryState).cursor <
        ((⟨[[[0]]], 1, 20⟩ : HistoryState).log.length : ℤ)) := by
  refine ⟨?_, by decide, by decide, by decide⟩
  have h1 : appendHistory [[1]] ((0 : ℤ) : ℚ) ⟨[[[0]]], 0, 20⟩ =
      .ok ⟨[[[0]], [[1]]], 1, 20⟩ := by decide
  have h2 : loadCheckpoint ((0 : ℤ) : ℚ) ⟨[[[0]], [[1]]], 1, 20⟩ =
      .ok ⟨[[[0]]], 1, 20⟩ := by decide
  exact Relation.ReflTransGen.head
    (HistoryStep.appendStep [[1]] ((0 : ℤ) : ℚ) _ _ h1)
    (Relation.ReflTransGen.single (HistoryStep.loadStep ((0 : ℤ) : ℚ) _ _ h2))

/-- A transition as in `HistoryStep`, except that `loadCheckpoint` is only
taken with a cursor argument at or after the current cursor store value
(which every call site ensures by pairing it with `setHistoryCursor`). -/
inductive HistorySafeStep : HistoryState → HistoryState → Prop where
  | appendStep (state : GridMap) (q : ℚ) (s s' : HistoryState) :
      appendHistory state q s = .ok s' → HistorySafeStep s s'
  | undoStep (r : Option GridMap) (s s' : HistoryState) :
      undo s = .ok (r, s') → HistorySafeStep s s'
  | redoStep (r : Option GridMap) (s s' : HistoryState) :
      redo s = .ok (r, s') → HistorySafeStep s s'
  | setCursorStep (q : ℚ) (s s' : HistoryState) :
      setHistoryCursor q s = .ok s' → HistorySafeStep s s'
  | loadStep (q : ℚ) (s s' : HistoryState) : (s.cursor : ℚ) ≤ q →
      loadCheckpoint q s = .ok s' → HistorySafeStep s s'

theorem historySafeStep_preserves_inv {s s' : HistoryState}
    (hinv : HistoryInv s) (hstep : HistorySafeStep s s') : HistoryInv s' := by
  cases hstep with
  | appendStep state q _ _ h =>
      obtain ⟨hc, -⟩ := appendHistory_ok_inv h
      intro hne
      have : s'.log.length ≠ 0 := by simpa using hne
      constructor <;> omega
  | undoStep r _ _ h =>
      rcases undo_ok_inv h with rfl | ⟨hl, -, h0, h1⟩
      · exact hinv
      · intro _
        rw [hl]
        exact ⟨h0, h1⟩
  | redoStep r _ _ h =>
      rcases redo_ok_inv h with rfl | ⟨hl, -, h0, h1⟩
      · exact hinv
      · intro _
        rw [hl]
        exact ⟨h0, h1⟩
  | setCursorStep q _ _ h =>
      obtain ⟨hl, -, -, h0, h1⟩ := setHistoryCursor_ok_inv h
      intro _
      rw [hl]
      exact ⟨h0, h1⟩
  | loadStep q _ _ hsafe h =>
      obtain ⟨hc, -, hcase⟩ := loadCheckpoint_ok_inv h
      rcases hcase with hl | ⟨h0, h1, hq, hl⟩
      · intro hne
        rw [hc, hl]
        exact hinv (by rw [hl] at hne; exact hne)
      · intro _
        have hcur0 : 0 ≤ s.cursor ∧ s.cursor < (s.log.length : ℤ) := by
          apply hinv
          intro habs
          rw [habs] at h1
          simp only [List.length_nil, Nat.cast_zero] at h1
          omega
        have hle : s.cursor ≤ q.num := by
          have : (s.cursor : ℚ) ≤ (q.num : ℚ) := by rw [hq]; exact hsafe
          exact_mod_cast this
        have hlen : s'.log.length = q.num.toNat + 1 := by
          rw [hl, List.length_take]
          omega
        rw [hc, hlen]
        constructor <;> omega

/-- **C2, amended.** For every state reachable from a seeded initial state
(non-empty log, cursor within bounds) by a finite sequence of
`appendHistory`, `undo`, `redo`, `setHistoryCursor` and `loadCheckpoint`
(each applied only when its preconditions hold, and every `loadCheckpoint`
called with a cursor argument not below the current cursor store value, as
its call sites do), the invariant `0 ≤ cursor < length(Log)` holds whenever
the log is non-empty. -/
theorem historyInvariant_of_reachable_safe (s0 s' : HistoryState)
    (hne : s0.log ≠ []) (h0 : 0 ≤ s0.cursor)
    (h1 : s0.cursor < (s0.log.length : ℤ))
    (hreach : Relation.ReflTransGen HistorySafeStep s0 s') :
    s'.log ≠ [] → 0 ≤ s'.cursor ∧ s'.cursor < (s'.log.length : ℤ) := by
  have hinv0 : HistoryInv s0 := fun _ => ⟨h0, h1⟩
  induction hreach with
  | refl => exact hinv0
  | tail hsteps hstep ih => exact historySafeStep_preserves_inv ih hstep

/-- Witness for the amended C2: one `appendHistory` step from the seeded
one-entry state. -/
theorem historyInvariant_of_reachable_safe_witness :
    0 ≤ (⟨[[[0]], [[1]]], 1, 20⟩ : HistoryState).cursor ∧
      (⟨[[[0]], [[1]]], 1, 20⟩ : HistoryState).cursor <
        ((⟨[[[0]], [[1]]], 1, 20⟩ : HistoryState).log.length : ℤ) := by
  have h1 : appendHistory [[1]] ((0 : ℤ) : ℚ) ⟨[[[0]]], 0, 20⟩ =
      .ok ⟨[[[0]], [[1]]], 1, 20⟩ := by decide
  exact historyInvariant_of_reachable_safe ⟨[[[0]]], 0, 20⟩ ⟨[[[0]], [[1]]], 1, 20⟩
    (by decide) (by decide) (by decide)
    (Relation.ReflTransGen.single (HistorySafeStep.appendStep [[1]] ((0 : ℤ) : ℚ) _ _ h1))
    (by decide)

/-! ## The persistence sink and the map-state adapter

The sink (`location.hash`, managed through `svelte-hash`) is a record of
optional string values with the two keys this core uses, `"map"` and
`"activeTab"` (spec §6).  Modelled from the spec: the `svelte-hash` store
obeys the Svelte `Writable` contract — `set` replaces the whole record
with its argument, `update` replaces it with `fn(current)`; the record
literal each caller passes is the entire new sink content. -/
structure HashRecord where
  map : Option String
  activeTab : Option String
  deriving DecidableEq, Repr

/-- JSON.stringify / JSON.parse on a `GridMap` are modelled char-exactly
below: `serializeGridMap` produces the text `JSON.stringify` produces on an
integer matrix (`[[1,2],[3]]`, no spaces), `parseGridMap` accepts the
integer-matrix fragment of JSON that `JSON.parse` accepts (and fails,
returning `none`, exactly where `JSON.parse` throws on such inputs). -/
def digitChar (d : ℕ) : Char := Char.ofNat (48 + d)

/-- The decimal digits of `n`, most significant first. -/
def serNatChars (n : ℕ) : List Char :=
  if n = 0 then ['0'] else (Nat.digits 10 n).reverse.map digitChar

/-- `JSON.stringify` of one integer. -/
def serInt (n : ℤ) : List Char :=
  if n < 0 then '-' :: serNatChars n.natAbs else serNatChars n.toNat

/-- Comma-separated rendering of a list of elements. -/
def joinComma {α : Type} (f : α → List Char) : List α → List Char
  | [] => []
  | [x] => f x
  | x :: y :: ys => f x ++ ',' :: joinComma f (y :: ys)

/-- `JSON.stringify` of one row. -/
def serRow (r : List ℤ) : List Char := '[' :: (joinComma serInt r ++ [']'])

/-- `JSON.stringify` of a whole grid map. -/
def serMap (m : GridMap) : List Char := '[' :: (joinComma serRow m ++ [']'])

/-- `JSON.stringify(gridMapValue)`. -/
def serializeGridMap (m : GridMap) : String := String.mk (serMap m)

def isDigitChar (c : Char) : Bool := 48 ≤ c.toNat && c.toNat ≤ 57

/-- Consume leading decimal digits, accumulating their value. -/
def parseDigits : List Char → ℕ → ℕ × List Char
  | [], acc => (acc, [])
  | c :: cs, acc =>
      if isDigitChar c then parseDigits cs (acc * 10 + (c.toNat - 48))
      else (acc, c :: cs)

/-- Parse a nonempty run of digits. -/
def parseNatNum (cs : List Char) : Option (ℕ × List Char) :=
  match cs with
  | c :: _ => if isDigitChar c then some (parseDigits cs 0) else none
  | [] => none

/-- Parse an optionally `-`-signed integer. -/
def parseIntNum (cs : List Char) : Option (ℤ × List Char) :=
  match cs with
  | c :: cs' =>
      if c = '-' then (parseNatNum cs').map (fun p => (-(p.1 : ℤ), p.2))
      else (parseNatNum (c :: cs')).map (fun p => ((p.1 : ℤ), p.2))
  | [] => none

/-- Parse the items of a nonempty row after its `[`, up to and including
the closing `]`. -/
def parseRowItems : ℕ → List Char → List ℤ → Option (List ℤ × List Char)
  | 0, _, _ => none
  | fuel + 1, cs, acc =>
      match parseIntNum cs with
      | none => none
      | some (n, rest) =>
          match rest with
          | [] => none
          | c :: rest' =>
              if c = ',' then parseRowItems fuel rest' (acc ++ [n])
              else if c = ']' then some (acc ++ [n], rest')
              else none

/-- Parse one `[...]` row. -/
def parseRow (fuel : ℕ) (cs : List Char) : Option (List ℤ × List Char) :=
  match cs with
  | c :: cs' =>
      if c = '[' then
        match cs' with
        | c' :: cs'' => if c' = ']' then some ([], cs'') else parseRowItems fuel cs' []
        | [] => none
      else none
  | [] => none

/-- Parse the rows of a nonempty matrix after its `[`, up to and including
the closing `]`. -/
def parseRows : ℕ → List Char → List (List ℤ) → Option (List (List ℤ) × List Char)
  | 0, _, _ => none
  | fuel + 1, cs, acc =>
      match parseRow fuel cs with
      | none => none
      | some (r, rest) =>
          match rest with
          | [] => none
          | c :: rest' =>
              if c = ',' then parseRows fuel rest' (acc ++ [r])
              else if c = ']' then some (acc ++ [r], rest')
              else none

/-- Parse a whole `[[...],...]` matrix. -/
def parseMap (fuel : ℕ) (cs : List Char) : Option (List (List ℤ) × List Char) :=
  match cs with
  | c :: cs' =>
      if c = '[' then
        match cs' with
        | c' :: cs'' => if c' = ']' then some ([], cs'') else parseRows fuel cs' []
        | [] => none
      else none
  | [] => none

/-- `JSON.parse` of a grid map: the whole text must parse with nothing left
over, otherwise `JSON.parse` throws (modelled as `none`). -/
def parseGridMap (s : String) : Option GridMap :=
  match parseMap (s.length + 1) s.toList with
  | some (m, []) => some m
  | _ => none

example : parseGridMap "not-json" = none := by decide

example : parseGridMap "[[1,2],[30,-4]]" = some [[1, 2], [30, -4]] := by decide

example : parseGridMap "[]" = some [] := by decide

example : parseGridMap "[[]]" = some [[]] := by decide

example : parseGridMap "[[1,2]" = none := by decide

example : parseGridMap "[[1,2]]x" = none := by decide

/-! ## Round-trip lemmas: digits and integers -/

/-- The continuation text does not begin with a digit (so a digit run ends
exactly where the serializer put its last digit). -/
def headNotDigit : List Char → Bool
  | [] => true
  | c :: _ => !isDigitChar c

theorem digitChar_toNat (d : ℕ) (h : d < 10) : (digitChar d).toNat = 48 + d := by
  interval_cases d <;> decide

theorem isDigitChar_digitChar (d : ℕ) (h : d < 10) :
    isDigitChar (digitChar d) = true := by
  interval_cases d <;> decide

theorem parseDigits_ser (ds : List ℕ) (hds : ∀ d ∈ ds, d < 10) (rest : List Char)
    (hrest : headNotDigit rest = true) (acc : ℕ) :
    parseDigits (ds.map digitChar ++ rest) acc =
      (acc * 10 ^ ds.length + Nat.ofDigits 10 ds.reverse, rest) := by
  induction ds generalizing acc with
  | nil =>
      cases rest with
      | nil => simp [parseDigits, Nat.ofDigits]
      | cons c cs =>
          have hc : isDigitChar c = false := by simpa [headNotDigit] using hrest
          simp [parseDigits, hc, Nat.ofDigits]
  | cons d ds ih =>
      have hd : d < 10 := hds d (by simp)
      have hds' : ∀ x ∈ ds, x < 10 := fun x hx => hds x (by simp [hx])
      simp only [List.map_cons, List.cons_append, parseDigits,
        isDigitChar_digitChar d hd, if_true, digitChar_toNat d hd,
        Nat.add_sub_cancel_left, List.append_eq]
      rw [ih hds' (acc * 10 + d)]
      refine Prod.ext ?_ rfl
      show (acc * 10 + d) * 10 ^ ds.length + Nat.ofDigits 10 ds.reverse =
        acc * 10 ^ (d :: ds).length + Nat.ofDigits 10 (d :: ds).reverse
      rw [List.reverse_cons, Nat.ofDigits_append, List.length_cons,
        List.length_reverse, Nat.ofDigits_singleton]
      ring

theorem serNatChars_head (n : ℕ) :
    ∃ c tl, serNatChars n = c :: tl ∧ isDigitChar c = true := by
  by_cases h0 : n = 0
  · exact ⟨'0', [], by simp [serNatChars, h0], by decide⟩
  · have hne : Nat.digits 10 n ≠ [] := Nat.digits_ne_nil_iff_ne_zero.mpr h0
    have hne' : (Nat.digits 10 n).reverse ≠ [] := by simpa using hne
    obtain ⟨d, ds', hcons⟩ := List.exists_cons_of_ne_nil hne'
    have hmem : d ∈ Nat.digits 10 n := by
      have : d ∈ (Nat.digits 10 n).reverse := by rw [hcons]; simp
      simpa using this
    have hd10 : d < 10 := Nat.digits_lt_base (by norm_num) hmem
    exact ⟨digitChar d, ds'.map digitChar, by simp [serNatChars, h0, hcons],
      isDigitChar_digitChar d hd10⟩

theorem parseNatNum_ser (n : ℕ) (rest : List Char) (hrest : headNotDigit rest = true) :
    parseNatNum (serNatChars n ++ rest) = some (n, rest) := by
  by_cases h0 : n = 0
  · subst h0
    have hser : serNatChars 0 = [0].map digitChar := by decide
    rw [hser]
    have hp := parseDigits_ser [0] (by simp) rest hrest 0
    simp only [List.map_cons, List.map_nil, List.cons_append, List.nil_append] at hp ⊢
    simp only [parseNatNum]
    rw [if_pos (by decide)]
    rw [hp]
    norm_num [Nat.ofDigits]
  · have hne : Nat.digits 10 n ≠ [] := Nat.digits_ne_nil_iff_ne_zero.mpr h0
    have hne' : (Nat.digits 10 n).reverse ≠ [] := by simpa using hne
    obtain ⟨d, ds', hcons⟩ := List.exists_cons_of_ne_nil hne'
    have hall : ∀ x ∈ (Nat.digits 10 n).reverse, x < 10 := by
      intro x hx
      exact Nat.digits_lt_base (by norm_num) (by simpa using hx)
    have hd10 : d < 10 := hall d (by rw [hcons]; simp)
    have hser : serNatChars n = (d :: ds').map digitChar := by
      simp [serNatChars, h0, hcons]
    rw [hser]
    have hp := parseDigits_ser (d :: ds') (hcons ▸ hall) rest hrest 0
    simp only [List.map_cons, List.cons_append] at hp ⊢
    simp only [parseNatNum]
    rw [if_pos (isDigitChar_digitChar d hd10)]
    rw [hp]
    have hrev : (d :: ds').reverse = Nat.digits 10 n := by
      rw [← hcons, List.reverse_reverse]
    rw [hrev]
    simp [Nat.ofDigits_digits]

theorem serInt_head (n : ℤ) :
    ∃ c tl, serInt n = c :: tl ∧ (c = '-' ∨ isDigitChar c = true) := by
  by_cases hneg : n < 0
  · exact ⟨'-', serNatChars n.natAbs, by simp [serInt, hneg], Or.inl rfl⟩
  · obtain ⟨c, tl, hser, hc⟩ := serNatChars_head n.toNat
    exact ⟨c, tl, by simp [serInt, hneg, hser], Or.inr hc⟩

theorem serInt_head_ne (n : ℤ) (c : Char) (tl : List Char) (h : serInt n = c :: tl) :
    ¬ (c = ']') ∧ ¬ (c = ',') := by
  obtain ⟨c', tl', hser, hc'⟩ := serInt_head n
  rw [hser] at h
  obtain ⟨rfl, -⟩ : c' = c ∧ tl' = tl := by
    constructor <;> [exact (List.cons.injEq .. ▸ h).1; exact (List.cons.injEq .. ▸ h).2]
  rcases hc' with rfl | hd
  · exact ⟨by decide, by decide⟩
  · constructor <;> intro he <;> rw [he] at hd <;> exact absurd hd (by decide)

theorem parseIntNum_ser (n : ℤ) (rest : List Char) (hrest : headNotDigit rest = true) :
    parseIntNum (serInt n ++ rest) = some (n, rest) := by
  by_cases hneg : n < 0
  · simp only [serInt, if_pos hneg, List.cons_append, parseIntNum, if_pos rfl]
    rw [parseNatNum_ser n.natAbs rest hrest]
    simp only [Option.map_some']
    refine congrArg some (Prod.ext ?_ rfl)
    show -(n.natAbs : ℤ) = n
    omega
  · obtain ⟨c, tl, hser, hc⟩ := serNatChars_head n.toNat
    have hser' : serInt n = c :: tl := by simp [serInt, hneg, hser]
    rw [hser', List.cons_append]
    simp only [parseIntNum]
    have hcne : ¬ (c = '-') := by
      intro he
      rw [he] at hc
      exact absurd hc (by decide)
    rw [if_neg hcne, ← List.cons_append, ← hser', show serInt n = serNatChars n.toNat by
      simp [serInt, hneg], parseNatNum_ser n.toNat rest hrest]
    simp only [Option.map_some']
    refine congrArg some (Prod.ext ?_ rfl)
    show ((n.toNat : ℤ)) = n
    omega

/-! ## Round-trip lemmas: rows and matrices -/

theorem joinComma_cons_eq {α : Type} (f : α → List Char) (x : α) (xs : List α) :
    ∃ mid, joinComma f (x :: xs) = f x ++ mid := by
  cases xs with
  | nil => exact ⟨[], by simp [joinComma]⟩
  | cons y ys => exact ⟨',' :: joinComma f (y :: ys), rfl⟩

theorem headNotDigit_cons (c : Char) (cs : List Char) (h : isDigitChar c = false) :
    headNotDigit (c :: cs) = true := by
  simp [headNotDigit, h]

theorem parseRowItems_ser (xs : List ℤ) : ∀ (x : ℤ) (fuel : ℕ), xs.length < fuel →
    ∀ (acc : List ℤ) (rest : List Char),
    parseRowItems fuel (joinComma serInt (x :: xs) ++ (']' :: rest)) acc =
      some (acc ++ (x :: xs), rest) := by
  induction xs with
  | nil =>
      intro x fuel hfuel acc rest
      cases fuel with
      | zero => omega
      | succ f =>
          show parseRowItems (f + 1) (serInt x ++ (']' :: rest)) acc = _
          simp only [parseRowItems]
          rw [parseIntNum_ser x (']' :: rest) (headNotDigit_cons _ _ (by decide))]
          simp
  | cons y ys ih =>
      intro x fuel hfuel acc rest
      cases fuel with
      | zero => exact absurd hfuel (by omega)
      | succ f =>
          show parseRowItems (f + 1)
            ((serInt x ++ ',' :: joinComma serInt (y :: ys)) ++ (']' :: rest)) acc = _
          rw [List.append_assoc, List.cons_append]
          simp only [parseRowItems]
          rw [parseIntNum_ser x (',' :: (joinComma serInt (y :: ys) ++ (']' :: rest)))
            (headNotDigit_cons _ _ (by decide))]
          simp only [if_true]
          rw [ih y f (by simp at hfuel ⊢; omega) (acc ++ [x]) rest]
          simp

theorem parseRow_ser (r : List ℤ) (fuel : ℕ) (hfuel : r.length < fuel)
    (rest : List Char) : parseRow fuel (serRow r ++ rest) = some (r, rest) := by
  cases r with
  | nil =>
      show parseRow fuel ('[' :: (']' :: rest)) = _
      simp [parseRow]
  | cons x xs =>
      obtain ⟨mid, hmid⟩ := joinComma_cons_eq serInt x xs
      obtain ⟨c, tl, hser, hc⟩ := serInt_head x
      have hshape : serRow (x :: xs) ++ rest =
          '[' :: (c :: (tl ++ mid ++ (']' :: rest))) := by
        show '[' :: (joinComma serInt (x :: xs) ++ [']']) ++ rest = _
        rw [List.cons_append, hmid, hser]
        simp [List.append_assoc]
      rw [hshape]
      simp only [parseRow, if_true]
      have hne : ¬ (c = ']') := by
        rcases hc with rfl | hd
        · decide
        · intro he; rw [he] at hd; exact absurd hd (by decide)
      rw [if_neg hne]
      have hback : c :: (tl ++ mid ++ (']' :: rest)) =
          joinComma serInt (x :: xs) ++ (']' :: rest) := by
        rw [hmid, hser]
        simp [List.append_assoc]
      rw [hback]
      rw [parseRowItems_ser xs x fuel (by simp at hfuel ⊢; omega) [] rest]
      simp

/-- The fuel `parseRows` needs for a row list: one unit per row plus one
per row entry. -/
def rowsFuel (ms : List (List ℤ)) : ℕ := ms.foldr (fun r a => r.length + 1 + a) 0

theorem parseRows_ser (ms : List (List ℤ)) : ∀ (m0 : List ℤ) (fuel : ℕ),
    rowsFuel (m0 :: ms) < fuel → ∀ (acc : List (List ℤ)) (rest : List Char),
    parseRows fuel (joinComma serRow (m0 :: ms) ++ (']' :: rest)) acc =
      some (acc ++ (m0 :: ms), rest) := by
  induction ms with
  | nil =>
      intro m0 fuel hfuel acc rest
      cases fuel with
      | zero => exact absurd hfuel (by omega)
      | succ f =>
          have hm0 : m0.length < f := by simp [rowsFuel] at hfuel; omega
          show parseRows (f + 1) (serRow m0 ++ (']' :: rest)) acc = _
          simp only [parseRows]
          rw [parseRow_ser m0 f hm0 (']' :: rest)]
          simp
  | cons m1 ms' ih =>
      intro m0 fuel hfuel acc rest
      cases fuel with
      | zero => exact absurd hfuel (by omega)
      | succ f =>
          have hm0 : m0.length < f := by simp [rowsFuel] at hfuel; omega
          have hfuel' : rowsFuel (m1 :: ms') < f := by
            simp [rowsFuel] at hfuel ⊢; omega
          show parseRows (f + 1)
            ((serRow m0 ++ ',' :: joinComma serRow (m1 :: ms')) ++ (']' :: rest)) acc = _
          rw [List.append_assoc, List.cons_append]
          simp only [parseRows]
          rw [parseRow_ser m0 f hm0 (',' :: (joinComma serRow (m1 :: ms') ++ (']' :: rest)))]
          simp only [if_true]
          rw [ih m1 f hfuel' (acc ++ [m0]) rest]
          simp

theorem parseMap_ser (m : GridMap) (fuel : ℕ) (hfuel : rowsFuel m < fuel)
    (rest : List Char) : parseMap fuel (serMap m ++ rest) = some (m, rest) := by
  cases m with
  | nil =>
      show parseMap fuel ('[' :: (']' :: rest)) = _
      simp [parseMap]
  | cons r rs =>
      obtain ⟨mid, hmid⟩ := joinComma_cons_eq serRow r rs
      have hshape : serMap (r :: rs) ++ rest =
          '[' :: ('[' :: ((joinComma serInt r ++ [']']) ++ mid ++ (']' :: rest))) := by
        show '[' :: (joinComma serRow (r :: rs) ++ [']']) ++ rest = _
        rw [List.cons_append, hmid]
        show '[' :: (('[' :: (joinComma serInt r ++ [']'])) ++ mid ++ [']'] ++ rest) = _
        simp [List.append_assoc]
      rw [hshape]
      simp only [parseMap, if_true]
      rw [if_neg (by decide)]
      have hback : ('[' : Char) :: ((joinComma serInt r ++ [']']) ++ mid ++ (']' :: rest)) =
          joinComma serRow (r :: rs) ++ (']' :: rest) := by
        rw [hmid]
        show _ = ('[' :: (joinComma serInt r ++ [']'])) ++ mid ++ (']' :: rest)
        simp [List.append_assoc]
      rw [hback]
      rw [parseRows_ser rs r fuel hfuel [] rest]
      simp

/-! ## Fuel accounting: the string's own length is enough fuel -/

theorem serNatChars_ne_nil (n : ℕ) : serNatChars n ≠ [] := by
  obtain ⟨c, tl, hser, -⟩ := serNatChars_head n
  simp [hser]

theorem serInt_length_pos (n : ℤ) : 1 ≤ (serInt n).length := by
  obtain ⟨c, tl, hser, -⟩ := serInt_head n
  simp [hser]

theorem joinComma_length_ge {α : Type} (f : α → List Char)
    (hf : ∀ x, 1 ≤ (f x).length) :
    ∀ l : List α, l.length ≤ (joinComma f l).length + 1 := by
  intro l
  induction l with
  | nil => simp [joinComma]
  | cons x xs ih =>
      cases xs with
      | nil =>
          have := hf x
          simp only [joinComma, List.length_singleton]
          omega
      | cons y ys =>
          have hx := hf x
          have : joinComma f (x :: y :: ys) = f x ++ ',' :: joinComma f (y :: ys) := rfl
          rw [this]
          simp only [List.length_cons, List.length_append] at ih ⊢
          omega

theorem serRow_length (r : List ℤ) : r.length + 1 ≤ (serRow r).length := by
  have h := joinComma_length_ge serInt serInt_length_pos r
  simp only [serRow, List.length_cons, List.length_append, List.length_singleton]
  omega

theorem rowsFuel_le (m : GridMap) : rowsFuel m ≤ (joinComma serRow m).length + 1 := by
  induction m with
  | nil => simp [rowsFuel, joinComma]
  | cons r rs ih =>
      cases rs with
      | nil =>
          have := serRow_length r
          simp [rowsFuel, joinComma]
          omega
      | cons r1 rs' =>
          have hr := serRow_length r
          have hjoin : joinComma serRow (r :: r1 :: rs') =
              serRow r ++ ',' :: joinComma serRow (r1 :: rs') := rfl
          have hfold : rowsFuel (r :: r1 :: rs') =
              r.length + 1 + rowsFuel (r1 :: rs') := rfl
          rw [hjoin, hfold]
          simp only [List.length_append, List.length_cons] at ih ⊢
          omega

/-- `parse ∘ serialize = id` on grid maps (text level, full consumption). -/
theorem parseGridMap_serializeGridMap (m : GridMap) :
    parseGridMap (serializeGridMap m) = some m := by
  have hfuel : rowsFuel m < (serializeGridMap m).length + 1 := by
    have h1 := rowsFuel_le m
    have h2 : (serializeGridMap m).length = (joinComma serRow m).length + 2 := by
      show (String.mk (serMap m)).length = _
      simp [String.length, serMap]
    omega
  have hp := parseMap_ser m ((serializeGridMap m).length + 1) hfuel []
  rw [List.append_nil] at hp
  show (match parseMap ((serializeGridMap m).length + 1)
      (serializeGridMap m).toList with
    | some (m', []) => some m'
    | _ => none) = some m
  have htl : (serializeGridMap m).toList = serMap m := rfl
  rw [htl, hp]

/-! ## The map-state adapter, default map and active-tab store -/

/-- `defaultMapState` (`default-map-state.ts`): a `rows × cols` grid with
every cell `Tileset.EMPTY`
(`Array.from({length: rows}, () => Array(cols).fill(Tileset.EMPTY))`). -/
def defaultMapState (rows cols : ℕ) : GridMap :=
  List.replicate rows (List.replicate cols Tileset.EMPTY)

/-- The value `mapState.subscribe` hands to a subscriber for a given sink
content (`map-state.ts`, the subscribe callback): if the `"map"` entry is
truthy (present and non-empty), `JSON.parse` it, falling back to
`defaultMapState` when parsing throws; otherwise use `defaultMapState`.
The `rows`, `cols` are the current grid-shape configuration behind the
`defaultMapState` derived store. -/
def mapStateDelivered (rows cols : ℕ) (r : HashRecord) : GridMap :=
  match r.map with
  | some s =>
      if s ≠ "" then
        match parseGridMap s with
        | some m => m
        | none => defaultMapState rows cols
      else defaultMapState rows cols
  | none => defaultMapState rows cols

/-- `mapState.set(gridMapValue)` (`map-state.ts`): stringify and pass the
record literal `{ map: mapJsonString }` to the private hash store's `set`,
which replaces the whole sink record — the literal carries no
`"activeTab"` key, so that key comes out absent.  (`JSON.stringify` cannot
throw on an integer matrix, so the catch branch is dead.) -/
def mapState_set (g : GridMap) (_prev : HashRecord) : HashRecord :=
  { map := some (serializeGridMap g), activeTab := none }

/-- `mapState.update(updater)` (`map-state.ts`): read the current record,
parse its `"map"` entry with the same fallback as the subscribe path, feed
the result to the updater, and return the record literal
`{ map: newMapJsonString }` as the whole new sink record. -/
def mapState_update (rows cols : ℕ) (f : GridMap → GridMap) (r : HashRecord) :
    HashRecord :=
  let currentMap : GridMap :=
    match r.map with
    | some s =>
        if s ≠ "" then
          match parseGridMap s with
          | some m => m
          | none => defaultMapState rows cols
        else defaultMapState rows cols
    | none => defaultMapState rows cols
  { map := some (serializeGridMap (f currentMap)), activeTab := none }

/-- `DEFAULT_ACTIVE_TAB` (`active-tab.ts`). -/
def DEFAULT_ACTIVE_TAB : String := "chat"

/-- `activeTab.set(tabValue)` (`active-tab.ts`): goes through the shared
hash store's `update`, spreading the current record
(`{ ...current, activeTab: tabValue }`), so every other key is kept. -/
def activeTab_set (tab : String) (r : HashRecord) : HashRecord :=
  { r with activeTab := some tab }

/-- `activeTab.update(updater)` (`active-tab.ts`): reads the current tab
(falling back to `DEFAULT_ACTIVE_TAB` unless the stored value is the
literal `"edit"` or `"chat"`), applies the updater, and spreads the
current record (`{ ...currentHashContainer, activeTab: newTab }`). -/
def activeTab_update (f : String → String) (r : HashRecord) : HashRecord :=
  let currentTab : String :=
    match r.activeTab with
    | some t => if t = "edit" ∨ t = "chat" then t else DEFAULT_ACTIVE_TAB
    | none => DEFAULT_ACTIVE_TAB
  { r with activeTab := some (f currentTab) }

/-! ## C8: fallback to the default all-EMPTY map -/

/-- **C8.** Whenever the sink's `"map"` value is absent or fails JSON
parsing, the grid state delivered to a subscriber — and the value fed to
the updater in `update` — is the default all-EMPTY map of the configured
shape: `rows` rows, each of `cols` cells, every cell `Tileset.EMPTY`; no
exception reaches the caller (both embedded paths are total, the parse
failure being consumed by the fallback). -/
theorem mapStateRead_fallback_default (rows cols : ℕ) (r : HashRecord)
    (h : r.map = none ∨ ∃ s, r.map = some s ∧ parseGridMap s = none) :
    mapStateDelivered rows cols r = defaultMapState rows cols ∧
    (mapStateDelivered rows cols r).length = rows ∧
    (∀ row ∈ mapStateDelivered rows cols r,
      row.length = cols ∧ ∀ t ∈ row, t = Tileset.EMPTY) ∧
    (∀ f, mapState_update rows cols f r =
      { map := some (serializeGridMap (f (defaultMapState rows cols))),
        activeTab := none }) := by
  have hdeliv : mapStateDelivered rows cols r = defaultMapState rows cols := by
    rcases h with hnone | ⟨s, hsome, hparse⟩
    · simp [mapStateDelivered, hnone]
    · by_cases hs : s = ""
      · subst hs
        simp [mapStateDelivered, hsome]
      · simp [mapStateDelivered, hsome, hs, hparse]
  refine ⟨hdeliv, ?_, ?_, ?_⟩
  · rw [hdeliv]
    simp [defaultMapState]
  · rw [hdeliv]
    intro row hrow
    have : row = List.replicate cols Tileset.EMPTY :=
      List.eq_of_mem_replicate hrow
    subst this
    exact ⟨by simp, fun t ht => List.eq_of_mem_replicate ht⟩
  · intro f
    rcases h with hnone | ⟨s, hsome, hparse⟩
    · simp [mapState_update, hnone]
    · by_cases hs : s = ""
      · subst hs
        simp [mapState_update, hsome]
      · simp [mapState_update, hsome, hs, hparse]

/-- Witness for C8: the sink `{"map": "not-json"}`. -/
theorem mapStateRead_fallback_default_witness :
    mapStateDelivered 2 3 ⟨some "not-json", none⟩ = defaultMapState 2 3 ∧
      mapStateDelivered 2 3 ⟨some "not-json", none⟩ =
        [[1, 1, 1], [1, 1, 1]] := by
  have h := mapStateRead_fallback_default 2 3 ⟨some "not-json", none⟩
    (Or.inr ⟨"not-json", rfl, by decide⟩)
  exact ⟨h.1, by rw [h.1]; decide⟩

/-! ## C9: round-trip serialization -/

/-- **C9.** For every grid map `m` (2D array of integer tile values),
parsing the serialized form yields the map back:
`JSON.parse(JSON.stringify(m)) = m`; consequently a map written to the sink
by `mapState.set` and read back through the parse path is delivered
unchanged. -/
theorem roundtrip_serialize_parse (m : GridMap) :
    parseGridMap (serializeGridMap m) = some m ∧
    ∀ rows cols r, mapStateDelivered rows cols (mapState_set m r) = m := by
  refine ⟨parseGridMap_serializeGridMap m, ?_⟩
  intro rows cols r
  have hne : serializeGridMap m ≠ "" := by
    intro habs
    have hdata : serMap m = ([] : List Char) := congrArg String.data habs
    simp [serMap] at hdata
  simp [mapStateDelivered, mapState_set, hne, parseGridMap_serializeGridMap m]

/-! ## C5: mapState.set / update overwrite the whole sink record -/

/-- **C5 (refuting the claimed frame property).** The source's
`mapState.set` passes the literal `{ map: ... }` to its hash store's `set`
and `mapState.update` returns the literal `{ map: ... }`, so a sink record
that previously held `activeTab = "edit"` comes out with no `"activeTab"`
at all: the write is a whole-record overwrite, not read-merge-write. -/
theorem mapState_set_drops_activeTab :
    (mapState_set [[1]] ⟨none, some "edit"⟩).activeTab = none ∧
    (mapState_set [[1]] ⟨none, some "edit"⟩).activeTab ≠ some "edit" ∧
    (mapState_update 2 2 (fun m => m) ⟨none, some "edit"⟩).activeTab = none := by
  exact ⟨rfl, by simp [mapState_set], rfl⟩

/-! ## C10: activeTab.set / update preserve the other keys -/

/-- **C10.** `activeTab.set(tab)` writes `"activeTab"` and, because it
spreads the current record, leaves every other key — in particular
`"map"` — exactly as it was; `activeTab.update` likewise. Switching tabs
never clobbers the persisted map. -/
theorem activeTab_preserves_map (r : HashRecord) (tab : String)
    (f : String → String) :
    (activeTab_set tab r).map = r.map ∧
    (activeTab_set tab r).activeTab = some tab ∧
    (activeTab_update f r).map = r.map :=
  ⟨rfl, rfl, rfl⟩
